import Mathlib

/-!
Verification of the GentlePage HTML cleaner (src/Backend/Scraper.py) and
style analyzer (src/Backend/StyleFinder.py) against their specification.

The HTML parser (BeautifulSoup) is an external collaborator; its output is
modelled as a tree of elements with a tag name, an attribute mapping and
ordered children, exactly the data model of the spec.  Each Python pass of
the form `for x in soup.find_all(...): x.decompose()` first collects the
matching nodes and then removes them, so a pass is modelled as one filter
over the tree as it stands when the pass starts.  Python strings are
modelled as Lean strings; the regular expressions of StyleFinder.py are
translated into executable scanners with the exact semantics of
re.findall on the concrete patterns of the source.
-/

/-! ## Character and string utilities (Python string semantics) -/

def pyWs (c : Char) : Bool :=
  c == ' ' || c == '\t' || c == '\n' || c == '\r' || c == '\x0b' || c == '\x0c'

def wordChar (c : Char) : Bool :=
  c.isAlphanum || c == '_'

def hexDigit (c : Char) : Bool :=
  c.isDigit || ('a' ≤ c && c ≤ 'f') || ('A' ≤ c && c ≤ 'F')

def lowerChar (c : Char) : Char :=
  if 'A' ≤ c && c ≤ 'Z' then Char.ofNat (c.toNat + 32) else c

def lowerStr (s : String) : String :=
  String.mk (s.data.map lowerChar)

def dropEndWhile (p : Char → Bool) (l : List Char) : List Char :=
  (l.reverse.dropWhile p).reverse

def stripCL (p : Char → Bool) (l : List Char) : List Char :=
  dropEndWhile p (l.dropWhile p)

def pyStrip (s : String) : String :=
  String.mk (stripCL pyWs s.data)

def stripChar (c : Char) (s : String) : String :=
  String.mk (stripCL (fun x => x == c) s.data)

def leadsWith : List Char → List Char → Bool
  | [], _ => true
  | _ :: _, [] => false
  | p :: ps, c :: cs => p == c && leadsWith ps cs

def ciLeads : List Char → List Char → Bool
  | [], _ => true
  | _ :: _, [] => false
  | p :: ps, c :: cs => lowerChar p == lowerChar c && ciLeads ps cs

def hasSubCL (pat : List Char) : List Char → Bool
  | [] => leadsWith pat []
  | c :: rest => leadsWith pat (c :: rest) || hasSubCL pat rest

def hasSub (s pat : String) : Bool :=
  hasSubCL pat.data s.data

def splitWsAux : List Char → List Char → List (List Char)
  | acc, [] => if acc.isEmpty then [] else [acc.reverse]
  | acc, c :: rest =>
    if pyWs c then
      if acc.isEmpty then splitWsAux [] rest else acc.reverse :: splitWsAux [] rest
    else splitWsAux (c :: acc) rest

def splitWsCL (l : List Char) : List (List Char) :=
  splitWsAux [] l

def splitCharAux (sep : Char) : List Char → List Char → List (List Char)
  | acc, [] => [acc.reverse]
  | acc, c :: rest =>
    if c == sep then acc.reverse :: splitCharAux sep [] rest
    else splitCharAux sep (c :: acc) rest

def splitOnCharCL (sep : Char) (l : List Char) : List (List Char) :=
  splitCharAux sep [] l

def joinWith (sep : String) : List String → String
  | [] => ""
  | [x] => x
  | x :: y :: rest => x ++ sep ++ joinWith sep (y :: rest)

/-! ## The document tree -/

inductive Node where
  | elem (tag : String) (attrs : List (String × String)) (children : List Node)
  | text (s : String)

def getAttr : List (String × String) → String → Option String
  | [], _ => none
  | (k, v) :: rest, key => if k == key then some v else getAttr rest key

def getAttrD (a : List (String × String)) (key d : String) : String :=
  (getAttr a key).getD d

def delKey (a : List (String × String)) (key : String) : List (String × String) :=
  a.filter (fun kv => !(kv.1 == key))

def removeKeys (a : List (String × String)) (ks : List String) : List (String × String) :=
  a.filter (fun kv => !(ks.contains kv.1))

def keysAbsent (a : List (String × String)) (ks : List String) : Bool :=
  ks.all (fun k => (getAttr a k).isNone)

def nodeTag : Node → String
  | .elem t _ _ => t
  | .text _ => ""

def nodeAttrs : Node → List (String × String)
  | .elem _ a _ => a
  | .text _ => []

/-- Multi-valued class attribute, split on whitespace as BeautifulSoup does. -/
def classTokens (a : List (String × String)) : List String :=
  match getAttr a ("class") with
  | some v => (splitWsCL v.data).map String.mk
  | none => []

def classJoined (a : List (String × String)) : String :=
  joinWith (" ") (classTokens a)

/-- Multi-valued rel attribute of link elements. -/
def relTokens (a : List (String × String)) : List String :=
  match getAttr a ("rel") with
  | some v => (splitWsCL v.data).map String.mk
  | none => []

/-! ## Navigation classifier (is_in_navigation, Scraper.py lines 30-43) -/

def navClassFrags : List String :=
  ["nav", "navigation", "menu", "navbar", "sl-nav", "offcanvas"]

def navIds : List String :=
  ["nav-header", "sl-nav", "sl-header-offcanvas", "menuOpen", "menuClose"]

/-- The per-ancestor test of is_in_navigation: tag nav/header, or a
navigation fragment inside the space-joined class string (the class list
must be truthy, i.e. non-empty), or an exactly matching id. -/
def navAncestor (n : Node) : Bool :=
  match n with
  | .text _ => false
  | .elem t a _ =>
    (t == "nav" || t == "header")
    || (if (classTokens a).isEmpty then false
        else navClassFrags.any (fun f => hasSub (classJoined a) f))
    || (match getAttr a ("id") with
        | some i => navIds.contains i
        | none => false)

/-- is_in_navigation, with the ancestor chain (parent first, root last)
made explicit: walk the chain and return true at the first match. -/
def is_in_navigation : List Node → Bool
  | [] => false
  | p :: rest => if navAncestor p then true else is_in_navigation rest

/-! ## Tree traversal helpers -/

mutual
/-- get_text(): concatenation of every descendant string. -/
def textAllN : Node → String
  | .text s => s
  | .elem _ _ cs => textAllL cs
def textAllL : List Node → String
  | [] => ""
  | n :: rest => textAllN n ++ textAllL rest
end

mutual
/-- get_text(strip=True): every descendant string stripped, then joined. -/
def textStripN : Node → String
  | .text s => pyStrip s
  | .elem _ _ cs => textStripL cs
def textStripL : List Node → String
  | [] => ""
  | n :: rest => textStripN n ++ textStripL rest
end

mutual
/-- Some element of the forest (elements only, all depths) satisfies q. -/
def anyElemN (q : Node → Bool) : Node → Bool
  | .text _ => false
  | .elem t a cs => q (.elem t a cs) || anyElemL q cs
def anyElemL (q : Node → Bool) : List Node → Bool
  | [] => false
  | n :: rest => anyElemN q n || anyElemL q rest
end

mutual
/-- Every element of the forest (elements only, all depths) satisfies q. -/
def allElemN (q : Node → Bool) : Node → Bool
  | .text _ => true
  | .elem t a cs => q (.elem t a cs) && allElemL q cs
def allElemL (q : Node → Bool) : List Node → Bool
  | [] => true
  | n :: rest => allElemN q n && allElemL q rest
end

mutual
/-- find_all on a tag: collect matching elements in document order. -/
def collectN (q : Node → Bool) : Node → List Node
  | .text _ => []
  | .elem t a cs => (if q (.elem t a cs) then [Node.elem t a cs] else []) ++ collectL q cs
def collectL (q : Node → Bool) : List Node → List Node
  | [] => []
  | n :: rest => collectN q n ++ collectL q rest
end

/-- element.find(tag) on descendants: does a strict descendant carry this tag. -/
def hasDescTag (t : String) (n : Node) : Bool :=
  match n with
  | .text _ => false
  | .elem _ _ cs => anyElemL (fun m => nodeTag m == t) cs

def hasDescTagIn (ts : List String) (n : Node) : Bool :=
  match n with
  | .text _ => false
  | .elem _ _ cs => anyElemL (fun m => ts.contains (nodeTag m)) cs

/-! ## Generic removal passes

A find_all/decompose loop collects its matches up front and removes each;
removing an element removes its whole subtree.  The context flag c is true
exactly when some strict ancestor satisfies navAncestor, so that
predicates may consult is_in_navigation. -/

mutual
def keepNode (p : Bool → Node → Bool) (c : Bool) : Node → List Node
  | .text s => [.text s]
  | .elem t a cs =>
    if p c (.elem t a cs) then []
    else [.elem t a (removeIfCtx p (c || navAncestor (.elem t a cs)) cs)]
def removeIfCtx (p : Bool → Node → Bool) (c : Bool) : List Node → List Node
  | [] => []
  | n :: rest => keepNode p c n ++ removeIfCtx p c rest
end

mutual
/-- soup.find(id=i) followed by decompose: remove only the first match in
document order.  Returns the new forest and whether a match was found. -/
def rfbN (i : String) : Node → (List Node × Bool)
  | .text s => ([.text s], false)
  | .elem t a cs =>
    if getAttr a ("id") == some i then ([], true)
    else
      match rfbL i cs with
      | (cs2, true) => ([.elem t a cs2], true)
      | (_, false) => ([.elem t a cs], false)
def rfbL (i : String) : List Node → (List Node × Bool)
  | [] => ([], false)
  | n :: rest =>
    match rfbN i n with
    | (ns, true) => (ns ++ rest, true)
    | (ns, false) =>
      match rfbL i rest with
      | (r, b) => (ns ++ r, b)
end

def removeFirstById (i : String) (ns : List Node) : List Node :=
  (rfbL i ns).1

/-! ## The cleaning pipeline (clean_html, Scraper.py lines 45-192)

Each numbered stage below is one find_all/decompose loop of the source, in
source order.  Serialization (prettify) is cosmetic and outside the tree
model, so cleanDoc is the tree-to-tree core of clean_html. -/

def tagPred (t : String) : Bool → Node → Bool :=
  fun _ n => nodeTag n == t

def headerNavClasses : List String :=
  ["nav", "navigation", "menu", "header-nav"]

/-- Header removal condition: no descendant nav and no navigation-related
class fragment in the joined class string. -/
def headerPred : Bool → Node → Bool :=
  fun _ n =>
    nodeTag n == "header"
    && !(hasDescTag ("nav") n)
    && !(headerNavClasses.any (fun f => hasSub (classJoined (nodeAttrs n)) f))

def trackers : List String :=
  ["analytics", "gtag", "google-analytics", "googletagmanager",
   "facebook.net", "fbevents", "connect.facebook",
   "linkedin.com", "li.lms-analytics",
   "reddit", "pixel",
   "pinterest", "pintrk",
   "tiq.sunlife", "utag", "tealium",
   "cookielaw", "onetrust",
   "decibelinsight",
   "go-mpulse", "boomerang",
   "chrome-extension://",
   "coveo"]

def scriptKeywords : List String :=
  ["utag_data", "fbq(", "gtag(", "_linkedin_data_partner_ids"]

/-- Deny-listed src: the lowercased src attribute contains a tracking
fragment. -/
def denySrc (a : List (String × String)) : Bool :=
  trackers.any (fun t => hasSub (lowerStr (getAttrD a ("src") (""))) t)

/-- Script removal condition (all three branches of the source decompose). -/
def scriptPred : Bool → Node → Bool :=
  fun _ n =>
    nodeTag n == "script"
    && (denySrc (nodeAttrs n)
        || hasSub (getAttrD (nodeAttrs n) ("id") ("")) ("utag")
        || hasSub (textAllN n) ("BOOMR")
        || getAttr (nodeAttrs n) ("type") == some ("application/ld+json")
        || scriptKeywords.any (fun k => hasSub (textAllN n) k))

def extTags : List String :=
  ["grammarly-desktop-integration", "simplify-jobs-page-script"]

def extTagPred : Bool → Node → Bool :=
  fun _ n => extTags.contains (nodeTag n)

def extClassFrags : List String :=
  ["apolloio", "extension-opener", "simplify-jobs"]

/-- class attribute matching re.compile of the extension markers: some
class token contains one of the fragments. -/
def extClassPred : Bool → Node → Bool :=
  fun _ n =>
    (classTokens (nodeAttrs n)).any (fun tok => extClassFrags.any (fun f => hasSub tok f))

def linkRelPred (vals : List String) : Bool → Node → Bool :=
  fun _ n =>
    nodeTag n == "link" && (relTokens (nodeAttrs n)).any (fun r => vals.contains r)

/-- Meta pruning: keep only a truthy charset attribute or name viewport or
name charset. -/
def metaPred : Bool → Node → Bool :=
  fun _ n =>
    nodeTag n == "meta"
    && !((match getAttr (nodeAttrs n) ("charset") with
          | some v => !(v == "")
          | none => false)
         || getAttr (nodeAttrs n) ("name") == some ("viewport")
         || getAttr (nodeAttrs n) ("name") == some ("charset"))

def classTokenPred (cls : String) : Bool → Node → Bool :=
  fun _ n => (classTokens (nodeAttrs n)).contains cls

/-- Hidden decorative removal: aria-hidden true, not an svg tag, not in
navigation, stripped text below 10 characters. -/
def ariaPred : Bool → Node → Bool :=
  fun c n =>
    getAttr (nodeAttrs n) ("aria-hidden") == some ("true")
    && !(nodeTag n == "svg")
    && !c
    && decide ((textStripN n).length < 10)

def dnAt (l : List Char) : Bool :=
  if leadsWith ("display".data) l then
    match (l.drop 7).dropWhile pyWs with
    | ':' :: r3 => leadsWith ("none".data) (r3.dropWhile pyWs)
    | _ => false
  else false

/-- re.search of display space colon space none. -/
def containsDisplayNoneCL : List Char → Bool
  | [] => false
  | c :: rest => dnAt (c :: rest) || containsDisplayNoneCL rest

/-- Display-none pruning: an inline style with a display none declaration
and stripped text below 10 characters.  Note: no navigation guard. -/
def displayNonePred : Bool → Node → Bool :=
  fun _ n =>
    (getAttr (nodeAttrs n) ("style")).isSome
    && containsDisplayNoneCL (lowerStr (getAttrD (nodeAttrs n) ("style") (""))).data
    && decide ((textStripN n).length < 10)

def importantTags : List String :=
  ["img", "a", "h1", "h2", "h3", "h4", "h5", "h6", "svg"]

/-- Empty container pruning: div or span, not in navigation, no svg
descendant, empty stripped text, no important descendant. -/
def emptyPred : Bool → Node → Bool :=
  fun c n =>
    (nodeTag n == "div" || nodeTag n == "span")
    && !c
    && !(hasDescTag ("svg") n)
    && (textStripN n == "")
    && !(hasDescTagIn importantTags n)

def baseAttrs : List String :=
  ["data-sl-aem-component", "data-sl-component", "data-cmp-hook-accordion",
   "data-class", "data-class-icon",
   "data-parsley-validate", "data-parsley-error-message",
   "data-parsley-id", "data-parsley-pattern", "data-parsley-pattern-message",
   "data-parsley-required", "data-parsley-required-message", "data-single-expansion",
   "data-title", "data-cy", "data-grammarly-shadow-root"]

def faAttrs : List String :=
  ["data-fa-i2svg", "data-icon", "data-prefix"]

def bsAttrs : List String :=
  ["data-bs-target", "data-bs-toggle", "data-bs-dismiss"]

/-- Attribute keys the stripping stage deletes: the inline style (first in
the source) and the icon-font and toggle attributes only outside
navigation, the fixed vendor list always. -/
def attrStripList (c : Bool) : List String :=
  if c then baseAttrs else "style" :: (baseAttrs ++ faAttrs ++ bsAttrs)

def stripAttrs (c : Bool) (a : List (String × String)) : List (String × String) :=
  removeKeys a (attrStripList c)

mutual
/-- Inline style stripping and noise-attribute stripping (Scraper.py lines
151-178), one walk over every element with the navigation context. -/
def attrPassN (c : Bool) : Node → Node
  | .text s => .text s
  | .elem t a cs =>
    .elem t (stripAttrs c a)
      (attrPassL (c || navAncestor (.elem t (stripAttrs c a) cs)) cs)
def attrPassL (c : Bool) : List Node → List Node
  | [] => []
  | n :: rest => attrPassN c n :: attrPassL c rest
end

/-- Stages 1 to 11 of clean_html: every removal pass before attribute
stripping, in source order. -/
def passesBeforeAttrs (doc : List Node) : List Node :=
  let d := removeIfCtx (tagPred ("style")) false doc
  let d := removeIfCtx (tagPred ("footer")) false d
  let d := removeIfCtx (tagPred ("iframe")) false d
  let d := removeIfCtx (tagPred ("noscript")) false d
  let d := removeIfCtx headerPred false d
  let d := removeIfCtx scriptPred false d
  let d := removeIfCtx extTagPred false d
  let d := removeIfCtx extClassPred false d
  let d := removeIfCtx (linkRelPred ["preload", "prefetch"]) false d
  let d := removeIfCtx metaPred false d
  let d := removeIfCtx (linkRelPred ["canonical", "alternate"]) false d
  let d := removeFirstById ("onetrust-consent-sdk") d
  let d := removeFirstById ("onetrust-banner-sdk") d
  let d := removeFirstById ("onetrust-pc-sdk") d
  let d := removeIfCtx (classTokenPred ("cookie")) false d
  let d := removeIfCtx (classTokenPred ("banner")) false d
  let d := removeIfCtx ariaPred false d
  let d := removeIfCtx displayNonePred false d
  d

/-- The tree-level core of clean_html: all removal stages, then attribute
stripping, then empty-container pruning. -/
def cleanDoc (doc : List Node) : List Node :=
  removeIfCtx emptyPred false (attrPassL false (passesBeforeAttrs doc))

/-! ## StyleFinder: color and font extraction

The four regular expressions of StyleFinder.py are translated into
executable scanners with re.findall semantics on these concrete patterns:
left-to-right scan, non-overlapping matches, resume after each match,
advance one character after a failed attempt. -/

/-- One attempt of the hex pattern (hash, 3 to 8 hex digits, word
boundary) at the head of the list: greedy digits, and the boundary can
only close the match when the whole digit run (at most 8 long) was
taken. -/
def hexScanAux : Nat → List Char → List String
  | _, [] => []
  | k + 1, _ :: rest => hexScanAux k rest
  | 0, c :: rest =>
    if c == '#' then
      let run := rest.takeWhile hexDigit
      let after := rest.drop run.length
      if decide (3 ≤ run.length) && decide (run.length ≤ 8)
          && (match after with | [] => true | c2 :: _ => !wordChar c2) then
        String.mk ('#' :: run) :: hexScanAux run.length rest
      else hexScanAux 0 rest
    else hexScanAux 0 rest

/-- Interior of a functional color: one or more characters other than a
closing parenthesis, then the closing parenthesis. -/
def interiorLen (r : List Char) : Option Nat :=
  let inner := r.takeWhile (fun x => !(x == ')'))
  match r.drop inner.length with
  | ')' :: _ => if inner.isEmpty then none else some inner.length
  | _ => none

/-- One attempt of the functional pattern (name, optional letter a, both
case-insensitive, parenthesized interior); returns the match length. -/
def funcAt (name : List Char) (l : List Char) : Option Nat :=
  if ciLeads name l then
    match l.drop name.length with
    | c1 :: c2 :: r =>
      if lowerChar c1 == 'a' && c2 == '(' then
        match interiorLen r with
        | some il => some (name.length + 2 + il + 1)
        | none => none
      else if c1 == '(' then
        match interiorLen (c2 :: r) with
        | some il => some (name.length + 1 + il + 1)
        | none => none
      else none
    | _ => none
  else none

def funcScanAux (name : List Char) : Nat → List Char → List String
  | _, [] => []
  | k + 1, _ :: rest => funcScanAux name k rest
  | 0, c :: rest =>
    match funcAt name (c :: rest) with
    | some len => String.mk ((c :: rest).take len) :: funcScanAux name (len - 1) rest
    | none => funcScanAux name 0 rest

def namedColorProps : List String :=
  ["color", "background-color", "border-color", "fill", "stroke"]

def findProp : List String → List Char → Option String
  | [], _ => none
  | p :: ps, l => if ciLeads p.data l then some p else findProp ps l

/-- One attempt of the property-qualified named color pattern: property
alternation, optional whitespace, colon, optional whitespace, a letter
run, and a trailing word boundary; returns both groups (in original
case) and the match length. -/
def namedAt (l : List Char) : Option (String × String × Nat) :=
  match findProp namedColorProps l with
  | none => none
  | some p =>
    let r1 := l.drop p.length
    let ws1 := r1.takeWhile pyWs
    match r1.drop ws1.length with
    | ':' :: r2 =>
      let ws2 := r2.takeWhile pyWs
      let r3 := r2.drop ws2.length
      let val := r3.takeWhile Char.isAlpha
      let after := r3.drop val.length
      if val.isEmpty then none
      else if (match after with | [] => true | c2 :: _ => !wordChar c2) then
        some (String.mk (l.take p.length), String.mk val,
              p.length + ws1.length + 1 + ws2.length + val.length)
      else none
    | _ => none

def namedScanAux : Option Char → Nat → List Char → List (String × String)
  | _, _, [] => []
  | _, k + 1, c :: rest => namedScanAux (some c) k rest
  | prev, 0, c :: rest =>
    let bOk := match prev with | none => true | some pc => !wordChar pc
    if bOk then
      match namedAt (c :: rest) with
      | some (p, v, len) => (p, v) :: namedScanAux (some c) (len - 1) rest
      | none => namedScanAux (some c) 0 rest
    else namedScanAux (some c) 0 rest

/-- The filter applied to named-color captures at extraction time
(case-sensitive, note the spelling currentColor). -/
def cssWideKeywords : List String :=
  ["inherit", "initial", "unset", "transparent", "currentColor"]

/-- extract_colors_from_style (StyleFinder.py lines 7-30): hex, then
rgb and rgba, then hsl and hsla, then filtered named colors. -/
def extract_colors_from_style (s : String) : List String :=
  hexScanAux 0 s.data
    ++ funcScanAux ("rgb".data) 0 s.data
    ++ funcScanAux ("hsl".data) 0 s.data
    ++ ((namedScanAux none 0 s.data).filter
          (fun pv => !(cssWideKeywords.contains pv.2))).map (fun pv => pv.2)

/-- One attempt of the font-family pattern: literal, optional whitespace,
colon, optional whitespace, then everything up to the next semicolon or
the end of the text. -/
def fontAt (l : List Char) : Option (String × Nat) :=
  if ciLeads ("font-family".data) l then
    let r1 := l.drop 11
    let ws1 := r1.takeWhile pyWs
    match r1.drop ws1.length with
    | ':' :: r2 =>
      let ws2 := r2.takeWhile pyWs
      let r3 := r2.drop ws2.length
      let grp := r3.takeWhile (fun x => !(x == ';'))
      if grp.isEmpty then none
      else some (String.mk grp, 11 + ws1.length + 1 + ws2.length + grp.length)
    | _ => none
  else none

def fontScanAux : Nat → List Char → List String
  | _, [] => []
  | k + 1, _ :: rest => fontScanAux k rest
  | 0, c :: rest =>
    match fontAt (c :: rest) with
    | some (g, len) => g :: fontScanAux (len - 1) rest
    | none => fontScanAux 0 rest

/-- Splitting a captured font-family value: split on commas, strip
whitespace, then double quotes, then single quotes. -/
def cleanFont (t : List Char) : String :=
  stripChar '\'' (stripChar '"' (pyStrip (String.mk t)))

/-- extract_fonts_from_style (StyleFinder.py lines 33-46). -/
def extract_fonts_from_style (s : String) : List String :=
  ((fontScanAux 0 s.data).map
    (fun m => (splitOnCharCL ',' m.data).map cleanFont)).flatten

/-! ## StyleFinder: document analysis (analyze_styles, lines 49-125) -/

structure Analysis where
  colors : List (String × Nat)
  fonts : List (String × Nat)
  external_stylesheets : List String

mutual
/-- The .string accessor of the parser: the single string below a chain
of single children, none otherwise. -/
def nodeString : Node → Option String
  | .text s => some s
  | .elem _ _ cs => forestString cs
def forestString : List Node → Option String
  | [c] => nodeString c
  | _ => none
end

def styleTagTexts (doc : List Node) : List String :=
  (collectL (fun n => nodeTag n == "style") doc).map (fun n => (nodeString n).getD (""))

def inlineStyleTexts (doc : List Node) : List String :=
  (collectL (fun n => (getAttr (nodeAttrs n) ("style")).isSome) doc).map
    (fun n => getAttrD (nodeAttrs n) ("style") (""))

def stylesheetLinks (doc : List Node) : List String :=
  ((collectL (fun n =>
      nodeTag n == "link" && (relTokens (nodeAttrs n)).contains ("stylesheet")) doc).map
    (fun n => getAttrD (nodeAttrs n) ("href") (""))).filter (fun h => !(h == ""))

/-- Truthy fill and stroke attribute values of one element. -/
def fillStroke (n : Node) : List String :=
  (match getAttr (nodeAttrs n) ("fill") with
   | some v => if v == "" then [] else [v]
   | none => [])
  ++ (match getAttr (nodeAttrs n) ("stroke") with
      | some v => if v == "" then [] else [v]
      | none => [])

/-- For every svg element (nested ones revisited, as in the source): its
own fill and stroke, then those of every descendant element. -/
def svgColors (doc : List Node) : List String :=
  ((collectL (fun n => nodeTag n == "svg") doc).map
    (fun svg =>
      fillStroke svg
        ++ ((match svg with
             | .elem _ _ cs => collectL (fun _ => true) cs
             | .text _ => []).map fillStroke).flatten)).flatten

/-- Counter insertion semantics: first-seen order, counts accumulated. -/
def bump : List (String × Nat) → String → List (String × Nat)
  | [], s => [(s, 1)]
  | (k, v) :: rest, s => if k == s then (k, v + 1) :: rest else (k, v) :: bump rest s

def countTokens (l : List String) : List (String × Nat) :=
  l.foldl bump []

def genericFonts : List String :=
  ["serif", "sans-serif", "monospace", "cursive", "fantasy", "system-ui"]

def noiseColors : List String :=
  ["none", "transparent", "inherit", "currentcolor"]

/-- The tree-level core of analyze_styles: collect raw tokens from style
tags, inline styles and svg presentation attributes, count them, and
filter the noise tokens case-insensitively from the final tables. -/
def analyzeDoc (doc : List Node) : Analysis :=
  let styleTexts := styleTagTexts doc
  let inlineTexts := inlineStyleTexts doc
  let all_colors :=
    (styleTexts.map extract_colors_from_style).flatten
      ++ (inlineTexts.map extract_colors_from_style).flatten
      ++ svgColors doc
  let all_fonts :=
    (styleTexts.map extract_fonts_from_style).flatten
      ++ (inlineTexts.map extract_fonts_from_style).flatten
  { colors := (countTokens all_colors).filter
      (fun kv => !(noiseColors.contains (lowerStr kv.1)))
    fonts := (countTokens all_fonts).filter
      (fun kv => !(genericFonts.contains (lowerStr kv.1)))
    external_stylesheets := stylesheetLinks doc }

/-! ## File access and entry points

File input and output and the parser are external collaborators; the
filesystem is a path-to-contents mapping, parsing and serialization are
parameters, and report formatting (cosmetic by the spec) is a
parameter of the style entry point. -/

def fsLookup : List (String × String) → String → Option String
  | [], _ => none
  | (k, v) :: rest, key => if k == key then some v else fsLookup rest key

def fsWrite (fs : List (String × String)) (p v : String) : List (String × String) :=
  (p, v) :: delKey fs p

/-- clean_html: read the input file (a missing file is the file-not-found
error, raised before any processing), parse, clean, serialize. -/
def clean_html (parse : String → List Node) (ser : List Node → String)
    (fs : List (String × String)) (path : String) : Except Unit String :=
  match fsLookup fs path with
  | none => .error ()
  | some content => .ok (ser (cleanDoc (parse content)))

/-- analyze_styles: read the input file, parse, analyze. -/
def analyze_styles (parse : String → List Node)
    (fs : List (String × String)) (path : String) : Except Unit Analysis :=
  match fsLookup fs path with
  | none => .error ()
  | some content => .ok (analyzeDoc (parse content))

/-- Scraper main: read the input for its size, clean, write the output;
a file-not-found error is caught and reported, nothing is written. -/
def scraperMain (parse : String → List Node) (ser : List Node → String)
    (fs : List (String × String)) : List (String × String) × List String :=
  match fsLookup fs ("Sample.txt") with
  | none => (fs, ["Error: Could not find Sample.txt"])
  | some _ =>
    match clean_html parse ser fs ("Sample.txt") with
    | .error _ => (fs, ["Error"])
    | .ok cleaned =>
      (fsWrite fs ("cleaned_output.html") cleaned,
       ["Cleaned HTML saved to cleaned_output.html"])

/-- StyleFinder main: analyze, print, save; a file-not-found error is
caught and reported with two messages, nothing is written. -/
def styleFinderMain (parse : String → List Node) (render : Analysis → String)
    (fs : List (String × String)) : List (String × String) × List String :=
  match analyze_styles parse fs ("Sample.txt") with
  | .error _ =>
    (fs, ["Error: Could not find Sample.txt",
          "Make sure Sample.txt exists in the Backend directory."])
  | .ok results =>
    (fsWrite fs ("style_analysis.txt") (render results),
     ["Detailed analysis saved to style_analysis.txt"])

/-! ## Generic lemmas about the passes -/

theorem allElemL_append (q : Node → Bool) :
    ∀ (xs ys : List Node),
      allElemL q (xs ++ ys) = (allElemL q xs && allElemL q ys)
  | [], ys => by simp [allElemL]
  | n :: rest, ys => by
      simp [allElemL, allElemL_append q rest ys, Bool.and_assoc]

/-- navAncestor reads only the tag and the attributes. -/
theorem navAncestor_children (t : String) (a : List (String × String))
    (cs cs2 : List Node) :
    navAncestor (.elem t a cs) = navAncestor (.elem t a cs2) := rfl

/-- A pass whose condition is never true inside navigation leaves any
forest in navigation context untouched. -/
theorem removeIfCtx_true_id (p : Bool → Node → Bool) (hp : ∀ n, p true n = false) :
    ∀ ns, removeIfCtx p true ns = ns
  | [] => rfl
  | .text s :: rest => by
      simp [removeIfCtx, keepNode, removeIfCtx_true_id p hp rest]
  | .elem t a cs :: rest => by
      simp [removeIfCtx, keepNode, hp, removeIfCtx_true_id p hp cs,
            removeIfCtx_true_id p hp rest]

/-- A pass removes nothing from a forest none of whose elements satisfy
its condition. -/
theorem removeIfCtx_eq_self (q : Node → Bool) :
    ∀ (c : Bool) (ns : List Node), allElemL (fun n => !(q n)) ns = true →
      removeIfCtx (fun _ m => q m) c ns = ns
  | _, [], _ => rfl
  | c, .text s :: rest, h => by
      rw [allElemL] at h
      simp only [allElemN, Bool.true_and] at h
      simp [removeIfCtx, keepNode, removeIfCtx_eq_self q c rest h]
  | c, .elem t a cs :: rest, h => by
      rw [allElemL] at h
      simp only [allElemN, Bool.and_eq_true] at h
      obtain ⟨⟨hn, hcs⟩, hrest⟩ := h
      rw [Bool.not_eq_true'] at hn
      simp [removeIfCtx, keepNode, hn,
            removeIfCtx_eq_self q _ cs hcs, removeIfCtx_eq_self q c rest hrest]

/-- Removal passes preserve any per-element invariant that depends only
on the tag and the attributes. -/
theorem allElemL_removeIfCtx (q : Node → Bool)
    (hq : ∀ t a cs cs2, q (.elem t a cs) = q (.elem t a cs2))
    (p : Bool → Node → Bool) :
    ∀ (c : Bool) (ns : List Node), allElemL q ns = true →
      allElemL q (removeIfCtx p c ns) = true
  | _, [], _ => rfl
  | c, .text s :: rest, h => by
      rw [allElemL] at h
      simp only [allElemN, Bool.true_and] at h
      simp [removeIfCtx, keepNode, allElemL, allElemN,
            allElemL_removeIfCtx q hq p c rest h]
  | c, .elem t a cs :: rest, h => by
      rw [allElemL] at h
      simp only [allElemN, Bool.and_eq_true] at h
      obtain ⟨⟨hn, hcs⟩, hrest⟩ := h
      by_cases hp : p c (.elem t a cs) = true
      · simp [removeIfCtx, keepNode, hp, allElemL_removeIfCtx q hq p c rest hrest]
      · rw [Bool.not_eq_true] at hp
        simp [removeIfCtx, keepNode, hp, allElemL, allElemN,
              hq t a cs (removeIfCtx p (c || navAncestor (.elem t a cs)) cs) ▸ hn,
              allElemL_removeIfCtx q hq p _ cs hcs,
              allElemL_removeIfCtx q hq p c rest hrest]

/-- A pass establishes the invariant that the failing elements are the
removed ones, for invariants reading only tags and attributes. -/
theorem allElemL_removeIfCtx_est (q : Node → Bool)
    (hq : ∀ t a cs cs2, q (.elem t a cs) = q (.elem t a cs2))
    (p : Bool → Node → Bool)
    (hqp : ∀ c t a cs, q (.elem t a cs) = false → p c (.elem t a cs) = true) :
    ∀ (c : Bool) (ns : List Node), allElemL q (removeIfCtx p c ns) = true
  | _, [] => rfl
  | c, .text s :: rest => by
      simp [removeIfCtx, keepNode, allElemL, allElemN,
            allElemL_removeIfCtx_est q hq p hqp c rest]
  | c, .elem t a cs :: rest => by
      by_cases hp : p c (.elem t a cs) = true
      · simp [removeIfCtx, keepNode, hp, allElemL_removeIfCtx_est q hq p hqp c rest]
      · have hn : q (.elem t a cs) = true := by
          cases hq0 : q (.elem t a cs) with
          | false => exact absurd (hqp c t a cs hq0) hp
          | true => rfl
        rw [Bool.not_eq_true] at hp
        simp [removeIfCtx, keepNode, hp, allElemL, allElemN,
              hq t a cs (removeIfCtx p (c || navAncestor (.elem t a cs)) cs) ▸ hn,
              allElemL_removeIfCtx_est q hq p hqp _ cs,
              allElemL_removeIfCtx_est q hq p hqp c rest]

mutual
/-- First-match removal preserves tag-and-attribute invariants. -/
theorem allElemL_rfbN (q : Node → Bool)
    (hq : ∀ t a cs cs2, q (.elem t a cs) = q (.elem t a cs2)) :
    ∀ (n : Node) (i : String), allElemN q n = true → allElemL q (rfbN i n).1 = true
  | .text s, i, _ => by simp [rfbN, allElemL, allElemN]
  | .elem t a cs, i, h => by
      rw [allElemN, Bool.and_eq_true] at h
      obtain ⟨hn, hcs⟩ := h
      by_cases hid : getAttr a ("id") == some i
      · simp [rfbN, hid, allElemL]
      · rw [Bool.not_eq_true] at hid
        rcases hr : rfbL i cs with ⟨cs2, b⟩
        have hcs2 := allElemL_rfbL q hq cs i hcs
        rw [hr] at hcs2
        cases b with
        | true =>
          simp [rfbN, hid, hr, allElemL, allElemN, hcs2, hq t a cs cs2 ▸ hn]
        | false =>
          simp [rfbN, hid, hr, allElemL, allElemN, hn, hcs]
theorem allElemL_rfbL (q : Node → Bool)
    (hq : ∀ t a cs cs2, q (.elem t a cs) = q (.elem t a cs2)) :
    ∀ (ns : List Node) (i : String), allElemL q ns = true → allElemL q (rfbL i ns).1 = true
  | [], _, _ => rfl
  | n :: rest, i, h => by
      rw [allElemL, Bool.and_eq_true] at h
      obtain ⟨hn, hrest⟩ := h
      rcases hr : rfbN i n with ⟨ns2, b⟩
      have hns2 := allElemL_rfbN q hq n i hn
      rw [hr] at hns2
      cases b with
      | true => simp [rfbL, hr, allElemL_append, hns2, hrest]
      | false =>
        rcases hr2 : rfbL i rest with ⟨r2, b2⟩
        have hr2' := allElemL_rfbL q hq rest i hrest
        rw [hr2] at hr2'
        simp [rfbL, hr, hr2, allElemL_append, hns2, hr2']
end

theorem allElemL_removeFirstById (q : Node → Bool)
    (hq : ∀ t a cs cs2, q (.elem t a cs) = q (.elem t a cs2))
    (i : String) (ns : List Node) (h : allElemL q ns = true) :
    allElemL q (removeFirstById i ns) = true :=
  allElemL_rfbL q hq ns i h

/-- The attribute-stripping walk preserves invariants stable under
stripping. -/
theorem allElemL_attrPassL (q : Node → Bool)
    (hq2 : ∀ (c : Bool) t a cs cs2, q (.elem t (stripAttrs c a) cs2) = q (.elem t a cs)) :
    ∀ (c : Bool) (ns : List Node), allElemL q ns = true →
      allElemL q (attrPassL c ns) = true
  | _, [], _ => rfl
  | c, .text s :: rest, h => by
      rw [allElemL] at h
      simp only [allElemN, Bool.true_and] at h
      simp [attrPassL, attrPassN, allElemL, allElemN, allElemL_attrPassL q hq2 c rest h]
  | c, .elem t a cs :: rest, h => by
      rw [allElemL] at h
      simp only [allElemN, Bool.and_eq_true] at h
      obtain ⟨⟨hn, hcs⟩, hrest⟩ := h
      simp [attrPassL, attrPassN, allElemL, allElemN,
            hq2 c t a cs (attrPassL (c || navAncestor (.elem t (stripAttrs c a) cs)) cs) ▸ hn,
            allElemL_attrPassL q hq2 _ cs hcs,
            allElemL_attrPassL q hq2 c rest hrest]

/-! ## Attribute cleanliness

After the attribute-stripping stage, every element is clean: relative to
its navigation context it carries none of the keys that stage deletes.
Removal passes preserve cleanliness, and the stripping stage is the
identity on clean forests. -/

def attrOk (c : Bool) (a : List (String × String)) : Bool :=
  keysAbsent a (attrStripList c)

mutual
def attrCleanN (c : Bool) : Node → Bool
  | .text _ => true
  | .elem t a cs => attrOk c a && attrCleanL (c || navAncestor (.elem t a cs)) cs
def attrCleanL (c : Bool) : List Node → Bool
  | [] => true
  | n :: rest => attrCleanN c n && attrCleanL c rest
end

theorem attrCleanL_append (c : Bool) :
    ∀ (xs ys : List Node),
      attrCleanL c (xs ++ ys) = (attrCleanL c xs && attrCleanL c ys)
  | [], ys => by simp [attrCleanL]
  | n :: rest, ys => by
      simp [attrCleanL, attrCleanL_append c rest ys, Bool.and_assoc]

theorem removeKeys_cons (k1 v : String) (rest : List (String × String))
    (ks : List String) :
    removeKeys ((k1, v) :: rest) ks =
      if k1 ∈ ks then removeKeys rest ks else (k1, v) :: removeKeys rest ks := by
  by_cases hm : k1 ∈ ks <;> simp [removeKeys, List.filter_cons, hm]

theorem getAttr_removeKeys (ks : List String) (k : String) :
    ∀ (a : List (String × String)),
      getAttr (removeKeys a ks) k = if k ∈ ks then none else getAttr a k
  | [] => by simp [removeKeys, getAttr]
  | (k1, v) :: rest => by
      by_cases hm : k1 ∈ ks <;> by_cases he : k1 = k
      · subst he
        simp [removeKeys_cons, hm, getAttr_removeKeys ks k1 rest]
      · simp [removeKeys_cons, hm, he, getAttr, getAttr_removeKeys ks k rest]
      · subst he
        simp [removeKeys_cons, hm, getAttr]
      · simp [removeKeys_cons, hm, he, getAttr, getAttr_removeKeys ks k rest]

theorem getAttr_eq_some_head (k : String) (v : String) (rest : List (String × String)) :
    getAttr ((k, v) :: rest) k = some v := by
  simp [getAttr]

theorem keysAbsent_removeKeys (a : List (String × String)) (ks : List String) :
    keysAbsent (removeKeys a ks) ks = true := by
  rw [keysAbsent, List.all_eq_true]
  intro k hk
  rw [getAttr_removeKeys ks k a]
  simp [hk]

theorem removeKeys_of_absent (ks : List String) :
    ∀ (a : List (String × String)), keysAbsent a ks = true → removeKeys a ks = a
  | [], _ => rfl
  | (k1, v) :: rest, h => by
      rw [keysAbsent, List.all_eq_true] at h
      have h1 : k1 ∉ ks := by
        intro hm
        have hm2 := h k1 hm
        rw [getAttr_eq_some_head] at hm2
        simp at hm2
      have h2 : keysAbsent rest ks = true := by
        rw [keysAbsent, List.all_eq_true]
        intro k hk
        have hm := h k hk
        by_cases he : k1 = k
        · exact absurd hk (he ▸ h1)
        · rw [getAttr] at hm
          simp only [he, beq_iff_eq, if_false] at hm
          exact hm
      simp [removeKeys_cons, h1, removeKeys_of_absent ks rest h2]

theorem attrOk_stripAttrs (c : Bool) (a : List (String × String)) :
    attrOk c (stripAttrs c a) = true :=
  keysAbsent_removeKeys a (attrStripList c)

theorem stripAttrs_of_clean (c : Bool) (a : List (String × String))
    (h : attrOk c a = true) : stripAttrs c a = a :=
  removeKeys_of_absent (attrStripList c) a h

mutual
/-- The stripping stage establishes cleanliness. -/
theorem attrCleanN_attrPassN :
    ∀ (c : Bool) (n : Node), attrCleanN c (attrPassN c n) = true
  | _, .text s => rfl
  | c, .elem t a cs => by
      rw [attrPassN]
      rw [attrCleanN, Bool.and_eq_true]
      exact ⟨attrOk_stripAttrs c a, attrCleanL_attrPassL _ cs⟩
theorem attrCleanL_attrPassL :
    ∀ (c : Bool) (ns : List Node), attrCleanL c (attrPassL c ns) = true
  | _, [] => rfl
  | c, n :: rest => by
      rw [attrPassL]
      rw [attrCleanL, Bool.and_eq_true]
      exact ⟨attrCleanN_attrPassN c n, attrCleanL_attrPassL c rest⟩
end

/-- Removal passes preserve cleanliness (the pass and the invariant
propagate the same navigation context). -/
theorem attrCleanL_removeIfCtx (p : Bool → Node → Bool) :
    ∀ (c : Bool) (ns : List Node), attrCleanL c ns = true →
      attrCleanL c (removeIfCtx p c ns) = true
  | _, [], _ => rfl
  | c, .text s :: rest, h => by
      rw [attrCleanL] at h
      simp only [attrCleanN, Bool.true_and] at h
      simp [removeIfCtx, keepNode, attrCleanL, attrCleanN,
            attrCleanL_removeIfCtx p c rest h]
  | c, .elem t a cs :: rest, h => by
      rw [attrCleanL] at h
      simp only [attrCleanN, Bool.and_eq_true] at h
      obtain ⟨⟨ha, hcs⟩, hrest⟩ := h
      by_cases hp : p c (.elem t a cs) = true
      · simp [removeIfCtx, keepNode, hp, attrCleanL_removeIfCtx p c rest hrest]
      · rw [Bool.not_eq_true] at hp
        simp [removeIfCtx, keepNode, hp, attrCleanL, attrCleanN, ha,
              attrCleanL_removeIfCtx p c rest hrest]
        exact attrCleanL_removeIfCtx p _ cs hcs

mutual
theorem attrCleanL_rfbN (i : String) :
    ∀ (c : Bool) (n : Node), attrCleanN c n = true → attrCleanL c (rfbN i n).1 = true
  | _, .text s, _ => by simp [rfbN, attrCleanL, attrCleanN]
  | c, .elem t a cs, h => by
      rw [attrCleanN, Bool.and_eq_true] at h
      obtain ⟨ha, hcs⟩ := h
      by_cases hid : getAttr a ("id") == some i
      · simp [rfbN, hid, attrCleanL]
      · rw [Bool.not_eq_true] at hid
        rcases hr : rfbL i cs with ⟨cs2, b⟩
        have hcs2 := attrCleanL_rfbL i _ cs hcs
        rw [hr] at hcs2
        cases b with
        | true =>
          simp only [rfbN, hid, hr, if_false, Bool.false_eq_true]
          simp [attrCleanL, attrCleanN, ha]
          exact hcs2
        | false => simp [rfbN, hid, hr, attrCleanL, attrCleanN, ha, hcs]
theorem attrCleanL_rfbL (i : String) :
    ∀ (c : Bool) (ns : List Node), attrCleanL c ns = true →
      attrCleanL c (rfbL i ns).1 = true
  | _, [], _ => rfl
  | c, n :: rest, h => by
      rw [attrCleanL, Bool.and_eq_true] at h
      obtain ⟨hn, hrest⟩ := h
      rcases hr : rfbN i n with ⟨ns2, b⟩
      have hns2 := attrCleanL_rfbN i c n hn
      rw [hr] at hns2
      cases b with
      | true => simp [rfbL, hr, attrCleanL_append, hns2, hrest]
      | false =>
        rcases hr2 : rfbL i rest with ⟨r2, b2⟩
        have hr2' := attrCleanL_rfbL i c rest hrest
        rw [hr2] at hr2'
        simp [rfbL, hr, hr2, attrCleanL_append, hns2, hr2']
end

theorem attrCleanL_removeFirstById (i : String) (c : Bool) (ns : List Node)
    (h : attrCleanL c ns = true) : attrCleanL c (removeFirstById i ns) = true :=
  attrCleanL_rfbL i c ns h

/-- The stripping stage is the identity on clean forests. -/
theorem attrPassL_of_clean :
    ∀ (c : Bool) (ns : List Node), attrCleanL c ns = true → attrPassL c ns = ns
  | _, [], _ => rfl
  | c, .text s :: rest, h => by
      rw [attrCleanL] at h
      simp only [attrCleanN, Bool.true_and] at h
      simp [attrPassL, attrPassN, attrPassL_of_clean c rest h]
  | c, .elem t a cs :: rest, h => by
      rw [attrCleanL] at h
      simp only [attrCleanN, Bool.and_eq_true] at h
      obtain ⟨⟨ha, hcs⟩, hrest⟩ := h
      have hs := stripAttrs_of_clean c a ha
      simp [attrPassL, attrPassN, hs, attrPassL_of_clean _ cs hcs,
            attrPassL_of_clean c rest hrest]

/-! ## Concrete documents used by the claims -/

/-- A nav element whose only child is an empty display-none div. -/
def c1doc : List Node :=
  [Node.elem ("nav") [] [Node.elem ("div") [("style", "display:none")] []]]

/-- An aria-hidden div with exactly 9 characters of text. -/
def c2doc9 : List Node :=
  [Node.elem ("div") [("aria-hidden", "true")] [Node.text ("123456789")]]

/-- An aria-hidden div with exactly 10 characters of text. -/
def c2doc10 : List Node :=
  [Node.elem ("div") [("aria-hidden", "true")] [Node.text ("1234567890")]]

/-- An aria-hidden div with an svg child and no text. -/
def c2docSvg : List Node :=
  [Node.elem ("div") [("aria-hidden", "true")] [Node.elem ("svg") [] []]]

/-- Two sections sharing the consent-sdk id, each with substantial text. -/
def c3doc : List Node :=
  [Node.elem ("section") [("id", "onetrust-consent-sdk")] [Node.text ("Hello World!")],
   Node.elem ("section") [("id", "onetrust-consent-sdk")] [Node.text ("Hello World!")]]

/-- A script loading the Google Tag Manager. -/
def gtmDoc : List Node :=
  [Node.elem ("script") [("src", "https://www.googletagmanager.com/gtm.js")] []]

/-- A script with a src matching no removal condition. -/
def appDoc : List Node :=
  [Node.elem ("script") [("src", "/app.js")] []]

/-! ## C1: navigation preservation -/

/-- C1 counterexample: the display-none pruning stage has no navigation
guard, so the div under the nav (present in the input) is deleted by
clean_html, refuting the claim that no descendant of a nav is deleted. -/
theorem c1_display_none_deletes_nav_descendant :
    anyElemL (fun n => nodeTag n == "div") c1doc = true
    ∧ anyElemL (fun n => nodeTag n == "div") (cleanDoc c1doc) = false :=
  ⟨rfl, rfl⟩

/-- C1 (amended): the two removal rules that consult the navigation
classifier, hidden-decorative (aria-hidden) and empty-container pruning,
delete nothing in navigation context: with the context flag true (as it
is for every node below a nav element, since navAncestor holds of a nav)
both passes are the identity.  Other rules, display-none pruning among
them, carry no navigation guard and can delete descendants of a nav. -/
theorem c1_nav_guarded_rules_preserve_nav_interior :
    (∀ ns, removeIfCtx ariaPred true ns = ns)
    ∧ (∀ ns, removeIfCtx emptyPred true ns = ns)
    ∧ (∀ a cs, navAncestor (.elem ("nav") a cs) = true) :=
  ⟨removeIfCtx_true_id ariaPred (fun n => by simp [ariaPred]),
   removeIfCtx_true_id emptyPred (fun n => by simp [emptyPred]),
   fun a cs => by simp [navAncestor]⟩

/-! ## C2: the hidden-content threshold -/

/-- C2 counterexample: an aria-hidden div that contains an svg child but
no text is deleted by clean_html (only elements whose own tag is svg are
skipped), refuting the claim that an element containing an svg child is
always kept. -/
theorem c2_svg_child_not_protected :
    anyElemL (fun n => nodeTag n == "div") c2docSvg = true
    ∧ anyElemL (fun n => nodeTag n == "div") (cleanDoc c2docSvg) = false :=
  ⟨rfl, rfl⟩

/-- C2 (amended): an aria-hidden element outside navigation whose own
tag is not svg is deleted at exactly 9 characters of stripped text and
kept at exactly 10; the unconditional protection applies to elements
whose own tag is svg (the hidden-decorative condition is false on any
svg element), not to elements merely containing an svg child. -/
theorem c2_aria_hidden_threshold :
    cleanDoc c2doc9 = []
    ∧ cleanDoc c2doc10 = c2doc10
    ∧ (∀ (c : Bool) a cs, ariaPred c (Node.elem ("svg") a cs) = false) :=
  ⟨rfl, rfl, fun c a cs => by simp [ariaPred, nodeTag]⟩

/-! ## C3: idempotence of the cleaner -/

/-- C3 counterexample: the consent-id stage removes only the first
element with the id onetrust-consent-sdk, so on a document with two of
them the first run leaves one behind and the second run deletes it:
running clean_html again does delete further elements. -/
theorem c3_second_run_deletes_more :
    cleanDoc (cleanDoc c3doc) = [] ∧ cleanDoc c3doc ≠ [] := by
  have h : cleanDoc c3doc
      = [Node.elem ("section") [("id", "onetrust-consent-sdk")]
          [Node.text ("Hello World!")]] := rfl
  have h2 : cleanDoc [Node.elem ("section") [("id", "onetrust-consent-sdk")]
      [Node.text ("Hello World!")]] = [] := rfl
  constructor
  · rw [h, h2]
  · rw [h]; simp

/-- C3 (amended): a second run of the cleaner can delete further
elements, but it strips no further attributes: on the output of
clean_html, the attribute-stripping stage of a second run (after that
run's removal stages) is the identity. -/
theorem c3_second_run_strips_no_attributes :
    ∀ d, attrPassL false (passesBeforeAttrs (cleanDoc d))
           = passesBeforeAttrs (cleanDoc d) := by
  intro d
  apply attrPassL_of_clean
  simp only [passesBeforeAttrs]
  apply attrCleanL_removeIfCtx
  apply attrCleanL_removeIfCtx
  apply attrCleanL_removeIfCtx
  apply attrCleanL_removeIfCtx
  apply attrCleanL_removeFirstById
  apply attrCleanL_removeFirstById
  apply attrCleanL_removeFirstById
  apply attrCleanL_removeIfCtx
  apply attrCleanL_removeIfCtx
  apply attrCleanL_removeIfCtx
  apply attrCleanL_removeIfCtx
  apply attrCleanL_removeIfCtx
  apply attrCleanL_removeIfCtx
  apply attrCleanL_removeIfCtx
  apply attrCleanL_removeIfCtx
  apply attrCleanL_removeIfCtx
  apply attrCleanL_removeIfCtx
  apply attrCleanL_removeIfCtx
  simp only [cleanDoc]
  apply attrCleanL_removeIfCtx
  exact attrCleanL_attrPassL false _

/-! ## C4: the color token patterns -/

/-- C4 counterexample: a hash followed by exactly 5 hexadecimal digits
is captured as a hex token (the pattern accepts 3 to 8 digits), refuting
the claim that 5-digit sequences are never captured. -/
theorem c4_five_digit_hex_captured :
    extract_colors_from_style ("color: #12345;") = ["#12345"] := rfl

/-- C4 (amended): hex tokens are a hash followed by 3 to 8 hexadecimal
digits, 5 and 7 included, accepted only when followed by a word
boundary (a 9-digit run yields nothing, and a 3-digit run followed by a
word character yields nothing); hex captures precede rgb and rgba
captures, which precede hsl and hsla captures, which precede
property-qualified named values (the named pattern can also capture a
function name such as rgba or hsla as the letter run after the colon);
duplicates are kept.  Verified on representative style texts. -/
theorem c4_hex_and_pattern_order :
    extract_colors_from_style ("color: #FF0000; background-color: rgba(0,0,0,0.5);")
      = ["#FF0000", "rgba(0,0,0,0.5)", "rgba"]
    ∧ extract_colors_from_style ("#1234567 #123456789 #abcz") = ["#1234567"]
    ∧ extract_colors_from_style ("background-color: hsla(1, 2%, 3%, .5); color:#AbC")
      = ["#AbC", "hsla(1, 2%, 3%, .5)", "hsla"]
    ∧ extract_colors_from_style ("fill: red; stroke: red;") = ["red", "red"] :=
  ⟨rfl, rfl, rfl, rfl⟩

/-! ## C5: script filtering -/

/-- No deny-listed src: the invariant that survives cleaning. -/
def scriptOk (n : Node) : Bool :=
  !(nodeTag n == "script" && denySrc (nodeAttrs n))

theorem scriptOk_children (t : String) (a : List (String × String))
    (cs cs2 : List Node) : scriptOk (.elem t a cs) = scriptOk (.elem t a cs2) := rfl

theorem getAttr_stripAttrs_src (c : Bool) (a : List (String × String)) :
    getAttr (stripAttrs c a) ("src") = getAttr a ("src") := by
  cases c
  · rw [stripAttrs, getAttr_removeKeys, if_neg (by decide)]
  · rw [stripAttrs, getAttr_removeKeys, if_neg (by decide)]

theorem scriptOk_strip (c : Bool) (t : String) (a : List (String × String))
    (cs cs2 : List Node) :
    scriptOk (.elem t (stripAttrs c a) cs2) = scriptOk (.elem t a cs) := by
  simp [scriptOk, nodeTag, nodeAttrs, denySrc, getAttrD, getAttr_stripAttrs_src]

theorem scriptOk_false_removed (c : Bool) (t : String) (a : List (String × String))
    (cs : List Node) (h : scriptOk (.elem t a cs) = false) :
    scriptPred c (.elem t a cs) = true := by
  rw [scriptOk, Bool.not_eq_false', Bool.and_eq_true] at h
  simp [scriptPred, h.1, h.2]

/-- After the full pipeline no script with a deny-listed src remains:
the script pass removes them all and every later stage only removes
nodes or strips attributes other than src. -/
theorem scriptOk_cleanDoc (d : List Node) : allElemL scriptOk (cleanDoc d) = true := by
  simp only [cleanDoc, passesBeforeAttrs]
  apply allElemL_removeIfCtx scriptOk scriptOk_children
  apply allElemL_attrPassL scriptOk scriptOk_strip
  apply allElemL_removeIfCtx scriptOk scriptOk_children
  apply allElemL_removeIfCtx scriptOk scriptOk_children
  apply allElemL_removeIfCtx scriptOk scriptOk_children
  apply allElemL_removeIfCtx scriptOk scriptOk_children
  apply allElemL_removeFirstById scriptOk scriptOk_children
  apply allElemL_removeFirstById scriptOk scriptOk_children
  apply allElemL_removeFirstById scriptOk scriptOk_children
  apply allElemL_removeIfCtx scriptOk scriptOk_children
  apply allElemL_removeIfCtx scriptOk scriptOk_children
  apply allElemL_removeIfCtx scriptOk scriptOk_children
  apply allElemL_removeIfCtx scriptOk scriptOk_children
  apply allElemL_removeIfCtx scriptOk scriptOk_children
  exact allElemL_removeIfCtx_est scriptOk scriptOk_children scriptPred
    scriptOk_false_removed false _

/-- C5: a script whose src contains a deny-listed tracking fragment is
deleted (no such script survives clean_html, shown for every input
document), and the script-filtering stage keeps every script that
matches none of its removal conditions (on a document whose elements all
fail the condition, the stage changes nothing); concretely, the Google
Tag Manager script is removed and the plain /app.js script survives the
whole pipeline. -/
theorem c5_script_filtering :
    (∀ d, allElemL scriptOk (cleanDoc d) = true)
    ∧ (∀ (c : Bool) (d : List Node),
        allElemL (fun n => !(scriptPred c n)) d = true →
          removeIfCtx scriptPred c d = d)
    ∧ cleanDoc gtmDoc = []
    ∧ cleanDoc appDoc = appDoc :=
  ⟨scriptOk_cleanDoc,
   fun c d h => removeIfCtx_eq_self (fun n => scriptPred c n) c d h,
   rfl, rfl⟩

/-- C5 witness: the /app.js script document satisfies the keep
hypothesis and the script stage leaves it unchanged. -/
theorem c5_script_filtering_witness :
    allElemL (fun n => !(scriptPred false n)) appDoc = true
    ∧ removeIfCtx scriptPred false appDoc = appDoc :=
  ⟨rfl, c5_script_filtering.2.1 false appDoc rfl⟩

/-! ## C6: noise exclusion from the final tables -/

/-- C6: the frequency tables of analyze_styles contain no color whose
lowercase form is none, transparent, inherit or currentcolor, and no
font whose lowercase form is a generic family keyword, for every input
document. -/
theorem c6_noise_excluded :
    ∀ (doc : List Node) (s : String) (k : Nat),
      ((s, k) ∈ (analyzeDoc doc).colors → noiseColors.contains (lowerStr s) = false)
      ∧ ((s, k) ∈ (analyzeDoc doc).fonts → genericFonts.contains (lowerStr s) = false) := by
  intro doc s k
  constructor <;> intro h
  · simp only [analyzeDoc] at h
    rw [List.mem_filter] at h
    simpa using h.2
  · simp only [analyzeDoc] at h
    rw [List.mem_filter] at h
    simpa using h.2

/-- A document with one inline style declaring a color and a font. -/
def c6doc : List Node :=
  [Node.elem ("div") [("style", "color: #fff; font-family: Abc;")] []]

/-- C6 witness: on the concrete document the color and font the tables
contain are not noise tokens. -/
theorem c6_noise_excluded_witness :
    (("#fff", 1) ∈ (analyzeDoc c6doc).colors
      ∧ noiseColors.contains (lowerStr ("#fff")) = false)
    ∧ (("Abc", 1) ∈ (analyzeDoc c6doc).fonts
      ∧ genericFonts.contains (lowerStr ("Abc")) = false) :=
  ⟨⟨by decide, (c6_noise_excluded c6doc ("#fff") 1).1 (by decide)⟩,
   ⟨by decide, (c6_noise_excluded c6doc ("Abc") 1).2 (by decide)⟩⟩

/-! ## C7: the navigation classifier -/

/-- The ancestor condition in the words of the claim: tag nav or header,
or a class attribute whose space-joined token string contains a
navigation fragment as a substring, or an id exactly equal to a listed
one. -/
def navSpecAncestor (n : Node) : Bool :=
  match n with
  | .text _ => false
  | .elem t a _ =>
    (t == "nav" || t == "header")
    || (match getAttr a ("class") with
        | some v =>
          navClassFrags.any
            (fun f => hasSub (joinWith (" ") ((splitWsCL v.data).map String.mk)) f)
        | none => false)
    || (match getAttr a ("id") with
        | some i => navIds.contains i
        | none => false)

theorem navAncestor_eq_spec (n : Node) : navAncestor n = navSpecAncestor n := by
  cases n with
  | text s => rfl
  | elem t a cs =>
    rw [navAncestor, navSpecAncestor]
    rcases hc : getAttr a ("class") with _ | v
    · simp [classTokens, hc]
    · rcases hl : splitWsCL v.data with _ | ⟨tk, tks⟩
      · have hz : navClassFrags.any
            (fun f => hasSub (joinWith (" ") ([] : List String)) f) = false := by decide
        simp [classTokens, classJoined, hc, hl, hz]
      · simp [classTokens, classJoined, hc, hl]

/-- C7: is_in_navigation returns true on an ancestor chain exactly when
some strict ancestor in the chain has tag nav or header, a class whose
space-joined string contains one of the navigation fragments, or one of
the listed ids; otherwise it returns false.  (The embedding is a pure
function, so the read-only part of the contract is inherent.) -/
theorem c7_is_in_navigation_iff :
    ∀ (chain : List Node),
      is_in_navigation chain = true ↔ ∃ n ∈ chain, navSpecAncestor n = true := by
  intro chain
  induction chain with
  | nil => simp [is_in_navigation]
  | cons p rest ih =>
    rw [is_in_navigation]
    cases hp : navAncestor p with
    | true =>
      have hs : navSpecAncestor p = true := navAncestor_eq_spec p ▸ hp
      simp [hs]
    | false =>
      have hs : navSpecAncestor p = false := navAncestor_eq_spec p ▸ hp
      simp [hs, ih]

/-! ## C8: missing input file -/

/-- C8: when the input path is not in the filesystem, clean_html and
analyze_styles return the file-not-found error before any processing,
both entry points surface a user-visible message, and the filesystem is
unchanged: no partial output is written. -/
theorem c8_input_not_found :
    ∀ (parse : String → List Node) (ser : List Node → String)
      (render : Analysis → String) (fs : List (String × String)),
      fsLookup fs ("Sample.txt") = none →
        clean_html parse ser fs ("Sample.txt") = .error ()
        ∧ analyze_styles parse fs ("Sample.txt") = .error ()
        ∧ scraperMain parse ser fs = (fs, ["Error: Could not find Sample.txt"])
        ∧ styleFinderMain parse render fs =
            (fs, ["Error: Could not find Sample.txt",
                  "Make sure Sample.txt exists in the Backend directory."]) := by
  intro parse ser render fs h
  refine ⟨?_, ?_, ?_, ?_⟩ <;>
    simp [clean_html, analyze_styles, scraperMain, styleFinderMain, h]

/-- C8 witness: the empty filesystem misses the input, both programs
report the error and write nothing. -/
theorem c8_input_not_found_witness :
    fsLookup [] ("Sample.txt") = none
    ∧ (clean_html (fun _ => []) (fun _ => "") [] ("Sample.txt") = .error ()
       ∧ analyze_styles (fun _ => []) [] ("Sample.txt") = .error ()
       ∧ scraperMain (fun _ => []) (fun _ => "") [] =
           ([], ["Error: Could not find Sample.txt"])
       ∧ styleFinderMain (fun _ => []) (fun _ => "") [] =
           ([], ["Error: Could not find Sample.txt",
                 "Make sure Sample.txt exists in the Backend directory."])) :=
  ⟨rfl, c8_input_not_found (fun _ => []) (fun _ => "") (fun _ => "") [] rfl⟩

/-! ## C9: the case-sensitive extraction filter -/

/-- A document whose only style declares color INITIAL. -/
def c9doc : List Node :=
  [Node.elem ("div") [("style", "color: INITIAL;")] []]

/-- C9: named-color captures are filtered at extraction time against the
case-sensitive list inherit, initial, unset, transparent, currentColor:
lowercase initial yields no token, uppercase INITIAL yields the token
INITIAL, and that token also survives the final case-insensitive noise
filter of analyze_styles. -/
theorem c9_extraction_filter_case_sensitive :
    extract_colors_from_style ("color: initial;") = []
    ∧ extract_colors_from_style ("color: INITIAL;") = ["INITIAL"]
    ∧ (analyzeDoc c9doc).colors = [("INITIAL", 1)] :=
  ⟨rfl, rfl, rfl⟩

/-! ## C10: font capture runs to the next semicolon -/

/-- C10: when a font-family declaration is not terminated by a
semicolon, the capture runs to the next semicolon or the end of the
text, past the closing brace of the declaration block: the brace ends up
inside the token. -/
theorem c10_font_capture_through_brace :
    extract_fonts_from_style ("p\x7bfont-family:Arial\x7d") = ["Arial\x7d"]
    ∧ extract_fonts_from_style ("p\x7bfont-family:Arial\x7d q\x7bx:y;\x7d")
        = ["Arial\x7d q\x7bx:y"] :=
  ⟨rfl, rfl⟩
